import Mathlib

/-!
Shallow embedding of the `cldr-plural-rules` library (tokenizer, parser,
operand derivation and evaluator) together with theorems checking the
specification's claims against it.

Conventions of the embedding:
* The TypeScript `Map` (insertion-ordered) becomes an association list in
  insertion order.
* Thrown exceptions become `Except String`, carrying the message that the
  source would put in the `Error` / `ParseError` object.
* JavaScript numbers are modelled as exact rationals (`ℚ`), with NaN and the
  infinities represented explicitly where they can occur (`JSNum`).  The
  32-bit truncation performed by `n | 0` is modelled exactly (`jsToInt32`).
* The lazy token generator of `lexer.ts` is modelled by eager tokenization to
  a `List Token`; the parser's cursor over the lexer becomes the remaining
  token list.  The end-of-input token is the empty list.
-/

namespace PluralRules

set_option maxRecDepth 20000

/-- Decidable equality on `ℚ` by comparing numerator and denominator
directly; the library-provided instance reduces too slowly for the concrete
evaluations below. -/
instance (priority := 2000) ratDecEq : DecidableEq ℚ := fun a b =>
  decidable_of_iff (a.num = b.num ∧ a.den = b.den)
    ⟨fun h => Rat.ext h.1 h.2, fun h => by subst h; exact ⟨rfl, rfl⟩⟩

/-- The single-quote character, used when rebuilding the source's error
message strings. -/
def sq : String := String.singleton (Char.ofNat 39)

/-- Keyword token kinds of `lexer.ts` (`'and' | 'in' | 'is' | 'mod' | 'not'
| 'or' | 'within'`). -/
inductive Keyword where
  | kAnd | kIn | kIs | kMod | kNot | kOr | kWithin
deriving DecidableEq, Repr

/-- Operator token kinds of `lexer.ts`
(`'!=' | ',' | '..' | '...' | '%' | ':' | ';' | '=' | '~'`). -/
inductive Op where
  | neq | comma | dotdot | ellipsis | percent | colon | semi | eq | tilde
deriving DecidableEq, Repr

/-- The eight operand letters (`types.ts` / `lexer.ts`). -/
inductive Operand where
  | n | i | f | t | v | w | c | e
deriving DecidableEq, Repr

/-- Tokens of `lexer.ts` (the end-of-input token is represented by the end of
the token list instead). -/
inductive Token where
  | keyword (k : Keyword)
  | oper (o : Op)
  | operand (o : Operand)
  | category (name : String)
  | sampleCat (integer : Bool)
  | value (source : String) (isInt : Bool)
deriving DecidableEq, Repr

/-- `isKeyword` of `lexer.ts`, returning which keyword matched. -/
def keywordOfString (s : String) : Option Keyword :=
  if s = "and" then some .kAnd
  else if s = "in" then some .kIn
  else if s = "is" then some .kIs
  else if s = "mod" then some .kMod
  else if s = "not" then some .kNot
  else if s = "or" then some .kOr
  else if s = "within" then some .kWithin
  else none

/-- `isOperand` of `lexer.ts`, returning which operand letter matched. -/
def operandOfString (s : String) : Option Operand :=
  if s = "n" then some .n
  else if s = "i" then some .i
  else if s = "f" then some .f
  else if s = "t" then some .t
  else if s = "v" then some .v
  else if s = "w" then some .w
  else if s = "c" then some .c
  else if s = "e" then some .e
  else none

/-- `isSampleCategory` of `lexer.ts`: `'@integer'` or `'@decimal'`. -/
def sampleCatOfString (s : String) : Option Bool :=
  if s = "@integer" then some true
  else if s = "@decimal" then some false
  else none

/-- Classification of a scanned word (regex group 1 of `tokens`): keyword,
operand letter or sample marker yield the corresponding token kind; otherwise
a word not starting with `@` is a plural-category name and an unknown
`@`-word is a lexical error. -/
def wordToken (w : String) : Except String Token :=
  match keywordOfString w with
  | some k => .ok (.keyword k)
  | none =>
    match operandOfString w with
    | some o => .ok (.operand o)
    | none =>
      match sampleCatOfString w with
      | some b => .ok (.sampleCat b)
      | none =>
        if w.data.headD ' ' ≠ '@' then .ok (.category w)
        else .error ("Unknown keyword token: " ++ w)

/-- Whitespace as matched by the regex's `\s` (the characters relevant to
this grammar; matching the JavaScript class on the ASCII range plus NBSP and
BOM). -/
def jsWhitespace (ch : Char) : Bool :=
  ch = ' ' || ch = '\t' || ch = '\n' || ch = '\r' ||
  ch.toNat = 11 || ch.toNat = 12 || ch.toNat = 160 || ch.toNat = 65279

/-- Lower-case ASCII letter, the regex class `[a-z]`. -/
def isLowerAZ (ch : Char) : Bool := 'a' ≤ ch && ch ≤ 'z'

/-- ASCII digit, the regex class `\d`. -/
def isDigitC (ch : Char) : Bool := '0' ≤ ch && ch ≤ '9'

/-- The optional fraction part of a numeric literal: regex `(?:\.\d+)?`.
Returns the matched characters and the rest. -/
def lexFrac : List Char → List Char × List Char
  | '.' :: d :: r =>
    if isDigitC d then ('.' :: d :: r.takeWhile isDigitC, r.dropWhile isDigitC)
    else ([], '.' :: d :: r)
  | r1 => ([], r1)

/-- The optional exponent part of a numeric literal: regex
`(?:[ce][1-9]\d*)?`.  Returns the matched characters and the rest. -/
def lexExp : List Char → List Char × List Char
  | m :: d :: r =>
    if (m = 'c' || m = 'e') && (isDigitC d && d ≠ '0')
    then (m :: d :: r.takeWhile isDigitC, r.dropWhile isDigitC)
    else ([], m :: d :: r)
  | r2 => ([], r2)

/-- Scanning of a numeric literal: regex group 3,
`\d+((?:\.\d+)?(?:[ce][1-9]\d*)?)`, started at a first digit `ch`.  Returns
the token and the rest of the input.  `isInt` is true exactly when group 4
(the fraction and exponent part) matched the empty string. -/
def lexNumber (ch : Char) (rest : List Char) : Token × List Char :=
  let ds := ch :: rest.takeWhile isDigitC
  let fr := lexFrac (rest.dropWhile isDigitC)
  let ex := lexExp fr.2
  (.value (String.mk (ds ++ fr.1 ++ ex.1)) (fr.1 ++ ex.1).isEmpty, ex.2)

/-- The operator characters that form a token on their own:
regex alternatives `[%,=:;~…]` of group 2 (the `…` variant is normalized to
the `'...'` kind, as in the source). -/
def singleOp (ch : Char) : Option Op :=
  if ch = '%' then some .percent
  else if ch = ',' then some .comma
  else if ch = '=' then some .eq
  else if ch = ':' then some .colon
  else if ch = ';' then some .semi
  else if ch = '~' then some .tilde
  else if ch = '…' then some .ellipsis
  else none

/-- The `!=` operator: regex alternative `!=` of group 2; a lone `!` is an
invalid character. -/
def lexBang : List Char → Except String (List Char)
  | '=' :: r => .ok r
  | _ => .error "Invalid character: !"

/-- The dot operators: regex alternative `\.\.\.?` of group 2 (`...` else
`..`); a lone `.` is an invalid character. -/
def lexDots : List Char → Except String (Op × List Char)
  | '.' :: '.' :: r => .ok (.ellipsis, r)
  | '.' :: r => .ok (.dotdot, r)
  | _ => .error "Invalid character: ."

/-- One fuelled pass of the token generator `tokens` of `lexer.ts`:
repeatedly match
`(@?[a-z]+)|(!=|[%,=:;~…]|\.\.\.?)|(\d+((?:\.\d+)?(?:[ce][1-9]\d*)?))|(\S)`
and classify; whitespace is skipped; group 5 (any other non-space character)
is a lexical error.  Every step consumes at least one character, so a fuel of
`l.length + 1` is always enough (`tokensF_congr`); the fuel only makes the
recursion structural. -/
def tokensF : Nat → List Char → Except String (List Token)
  | 0, _ => .error "out of fuel"
  | _ + 1, [] => .ok []
  | fuel + 1, ch :: rest =>
    if jsWhitespace ch then tokensF fuel rest
    else if isLowerAZ ch then
      match wordToken (String.mk (ch :: rest.takeWhile isLowerAZ)) with
      | .error e => .error e
      | .ok t => (tokensF fuel (rest.dropWhile isLowerAZ)).map (t :: ·)
    else if ch = '@' then
      if isLowerAZ (rest.headD ' ') then
        match wordToken (String.mk ('@' :: rest.takeWhile isLowerAZ)) with
        | .error e => .error e
        | .ok t => (tokensF fuel (rest.dropWhile isLowerAZ)).map (t :: ·)
      else .error "Invalid character: @"
    else if isDigitC ch then
      (tokensF fuel (lexNumber ch rest).2).map ((lexNumber ch rest).1 :: ·)
    else if ch = '!' then
      match lexBang rest with
      | .ok r => (tokensF fuel r).map (Token.oper .neq :: ·)
      | .error e => .error e
    else if ch = '.' then
      match lexDots rest with
      | .ok (o, r) => (tokensF fuel r).map (Token.oper o :: ·)
      | .error e => .error e
    else
      match singleOp ch with
      | some o => (tokensF fuel rest).map (Token.oper o :: ·)
      | none => .error ("Invalid character: " ++ String.singleton ch)

/-- The token stream of a character list (fuel instantiated to a sufficient
value). -/
def tokens (l : List Char) : Except String (List Token) :=
  tokensF (l.length + 1) l

/-- `lex` of `lexer.ts` on a whole source string. -/
def lexAll (source : String) : Except String (List Token) :=
  tokens source.data

/-- `parseInt(source, 10)` and the unary `+` of `operands.ts`, on strings of
decimal digits (the only strings they receive there); the empty string yields
0, as `+` does in JavaScript. -/
def natOfDigits (l : List Char) : Nat :=
  l.foldl (fun acc chr => 10 * acc + (chr.toNat - 48)) 0

/-- A JavaScript number as far as this library can observe it: NaN, an
infinity, or a finite value (modelled as an exact rational). -/
inductive JSNum where
  | nan
  | inf (negative : Bool)
  | fin (q : ℚ)
deriving Repr

instance : DecidableEq JSNum := fun a b =>
  match a, b with
  | .nan, .nan => isTrue rfl
  | .inf x, .inf y => decidable_of_iff (x = y) ⟨congrArg _, JSNum.inf.inj⟩
  | .fin p, .fin q => decidable_of_iff (p = q) ⟨congrArg _, JSNum.fin.inj⟩
  | .nan, .inf _ => isFalse (fun h => JSNum.noConfusion h)
  | .nan, .fin _ => isFalse (fun h => JSNum.noConfusion h)
  | .inf _, .nan => isFalse (fun h => JSNum.noConfusion h)
  | .inf _, .fin _ => isFalse (fun h => JSNum.noConfusion h)
  | .fin _, .nan => isFalse (fun h => JSNum.noConfusion h)
  | .fin _, .inf _ => isFalse (fun h => JSNum.noConfusion h)

/-- `10 ^ k` as a rational, for a natural exponent. -/
def pow10N : Nat → ℚ
  | 0 => 1
  | k + 1 => pow10N k * 10

/-- `10 ^ k` as a rational, for an integer exponent. -/
def pow10Z : ℤ → ℚ
  | .ofNat m => pow10N m
  | .negSucc m => 1 / pow10N (m + 1)

/-- `parseFloat`: skip leading whitespace, read an optional sign, then either
the literal `Infinity` or `digits [. digits] [e/E [sign] digits]`, taking the
longest valid prefix and ignoring anything after it; NaN when no number can
be read.  The finite value is exact here (a rational) rather than rounded to
a binary double. -/
def jsParseFloat (s : String) : JSNum :=
  let l := s.data.dropWhile jsWhitespace
  let sign :=
    match l with
    | '-' :: r => (true, r)
    | '+' :: r => (false, r)
    | _ => (false, l)
  let neg := sign.1
  let l₁ := sign.2
  if "Infinity".data.isPrefixOf l₁ then .inf neg
  else
    let intPart := l₁.takeWhile isDigitC
    let r₁ := l₁.dropWhile isDigitC
    let fr :=
      match r₁ with
      | '.' :: r => (r.takeWhile isDigitC, r.dropWhile isDigitC)
      | _ => ([], r₁)
    let fracPart := fr.1
    if intPart.isEmpty && fracPart.isEmpty then .nan
    else
      let expVal : Int :=
        match fr.2 with
        | m :: rest =>
          if m = 'e' ∨ m = 'E' then
            match rest with
            | '-' :: r => -(natOfDigits (r.takeWhile isDigitC) : Int)
            | '+' :: r => (natOfDigits (r.takeWhile isDigitC) : Int)
            | r => (natOfDigits (r.takeWhile isDigitC) : Int)
          else 0
        | [] => 0
      let mag : ℚ :=
        ((natOfDigits intPart : ℚ) +
          (natOfDigits fracPart : ℚ) / pow10N fracPart.length) *
          pow10Z expVal
      .fin (if neg then -mag else mag)

/-- `source.replace('c', 'e')`: replace the first occurrence only. -/
def replaceFirstC : List Char → List Char
  | [] => []
  | chr :: r => if chr = 'c' then 'e' :: r else chr :: replaceFirstC r

/-- `parseFloat` coerced to a rational; the non-finite fallback is never
reached on the numeric-token sources this is applied to. -/
def jsParseFloatQ (s : String) : ℚ :=
  match jsParseFloat s with
  | .fin q => q
  | _ => 0

/-- `Math.abs` on a finite value. -/
def jsAbs (q : ℚ) : ℚ := if q < 0 then -q else q

/-- Truncation of a rational toward zero (`ToIntegerOrInfinity` on a finite
value; the first step of ToInt32): for an exact rational this is the
truncating division of the numerator by the denominator. -/
def jsTrunc (q : ℚ) : ℤ := q.num.tdiv (q.den : ℤ)

/-- The ECMAScript ToInt32 conversion performed by `n | 0` in `operands.ts`:
truncate toward zero, reduce modulo 2^32 into `[0, 2^32)`, then subtract
2^32 when the result is at least 2^31. -/
def jsToInt32 (q : ℚ) : ℤ :=
  let m := jsTrunc q % 4294967296
  if 2147483648 ≤ m then m - 4294967296 else m

/-- `Value` node of `types.ts`: a parsed non-negative integer plus its
source text. -/
structure Value where
  source : String
  value : Nat
deriving DecidableEq, Repr

/-- `Range` node of `types.ts`: an inclusive range between two integer
values.  The second field is named `end` in the source, a reserved word
here. -/
structure Range where
  start : Value
  stop : Value
deriving DecidableEq, Repr

/-- An entry of a `RangeList` (`Range | Value` in `types.ts`). -/
inductive RangeItem where
  | value (v : Value)
  | range (r : Range)
deriving DecidableEq, Repr

/-- `Expr` node of `types.ts`. -/
structure Expr where
  operand : Operand
  modDivisor : Option Value
deriving DecidableEq, Repr

/-- `Relation` node of `types.ts`. -/
structure Relation where
  expr : Expr
  ranges : List RangeItem
  negated : Bool
  within : Bool
deriving DecidableEq, Repr

/-- `Alternative` of `types.ts`: `AndCondition | Relation`. -/
inductive Alternative where
  | andCond (relations : List Relation)
  | relC (r : Relation)
deriving DecidableEq, Repr

/-- `Condition` of `types.ts`: `OrCondition | AndCondition | Relation`, with
an `OrCondition` holding a list of alternatives. -/
inductive Condition where
  | orCond (alternatives : List Alternative)
  | andCond (relations : List Relation)
  | relC (r : Relation)
deriving DecidableEq, Repr

/-- The inclusion of `Alternative` into `Condition` (implicit subtyping in
the source). -/
def Alternative.toCondition : Alternative → Condition
  | .andCond relations => .andCond relations
  | .relC r => .relC r

/-- `SampleValue` node of `types.ts`. -/
structure SampleValue where
  source : String
  value : ℚ
deriving Repr

instance : DecidableEq SampleValue := fun a b =>
  decidable_of_iff (a.source = b.source ∧ a.value = b.value)
    ⟨fun h => by cases a; cases b; simp_all, fun h => by subst h; exact ⟨rfl, rfl⟩⟩

/-- `SampleRange` node of `types.ts` (`end` renamed to `stop`). -/
structure SampleRange where
  start : SampleValue
  stop : SampleValue
deriving DecidableEq, Repr

/-- An entry of a `SampleRangeList` (`SampleRange | SampleValue`). -/
inductive SampleItem where
  | value (v : SampleValue)
  | range (r : SampleRange)
deriving DecidableEq, Repr

/-- `SampleList` node of `types.ts`. -/
structure SampleList where
  ranges : List SampleItem
  infinite : Bool
deriving DecidableEq, Repr

/-- `Samples` node of `types.ts`. -/
structure Samples where
  integer : Option SampleList
  decimal : Option SampleList
deriving DecidableEq, Repr

/-- `PluralRule` node of `types.ts`. -/
structure PluralRule where
  condition : Condition
  samples : Option Samples
deriving DecidableEq, Repr

/-- `PluralRuleSet` node of `types.ts`.  The insertion-ordered
`ReadonlyMap<PluralCategory, PluralRule>` is an association list here. -/
structure PluralRuleSet where
  rules : List (String × PluralRule)
  other : Option Samples
deriving DecidableEq, Repr

/-- The spelling of a keyword. -/
def Keyword.str : Keyword → String
  | .kAnd => "and"
  | .kIn => "in"
  | .kIs => "is"
  | .kMod => "mod"
  | .kNot => "not"
  | .kOr => "or"
  | .kWithin => "within"

/-- The spelling of an operator. -/
def Op.str : Op → String
  | .neq => "!="
  | .comma => ","
  | .dotdot => ".."
  | .ellipsis => "..."
  | .percent => "%"
  | .colon => ":"
  | .semi => ";"
  | .eq => "="
  | .tilde => "~"

/-- The spelling of an operand letter. -/
def Operand.str : Operand → String
  | .n => "n"
  | .i => "i"
  | .f => "f"
  | .t => "t"
  | .v => "v"
  | .w => "w"
  | .c => "c"
  | .e => "e"

/-- Modelled from the spec: `Token.describe`, used inside the parser's error
messages, is referenced by `parser.ts` but not implemented under `src/`.
The spec requires a rendering of end-of-input and of value and category
tokens with their literal text; the renderings below follow the messages the
package documents (keywords, operators, operands and sample markers as their
quoted spelling, `value 'text'`, `plural category 'name'`, `end-of-file`).
`none` is the end-of-input token. -/
def describe : Option Token → String
  | none => "end-of-file"
  | some (.keyword k) => sq ++ k.str ++ sq
  | some (.oper o) => sq ++ o.str ++ sq
  | some (.operand o) => sq ++ o.str ++ sq
  | some (.sampleCat integer) => sq ++ (if integer then "@integer" else "@decimal") ++ sq
  | some (.category name) => "plural category " ++ sq ++ name ++ sq
  | some (.value source _) => "value " ++ sq ++ source ++ sq

/-- The result of a parsing step: a node plus the unconsumed tokens. -/
abbrev P (α : Type) : Type := Except String (α × List Token)

/-- Build the message of `expected(expected, actual)` in `parser.ts`. -/
def expectedErr (what : String) (actual : Option Token) : String :=
  "Expected " ++ what ++ "; got " ++ describe actual

/-- `expectIntValue` of `parser.ts`: the next token must be an integer
value token. -/
def expectIntValue (message : String) : List Token → P Value
  | .value source true :: rest => .ok (⟨source, natOfDigits source.data⟩, rest)
  | .value source false :: _ =>
    .error (expectedErr "an integer value" (some (.value source false)))
  | ts => .error (expectedErr message ts.head?)

/-- `parseExpr` of `parser.ts`: an operand letter, optionally followed by
`mod`/`%` and an integer divisor. -/
def parseExpr : List Token → P Expr
  | .operand o :: rest =>
    match rest with
    | .keyword .kMod :: r₂ =>
      (expectIntValue ("value after " ++ sq ++ "mod" ++ sq ++ " or " ++ sq ++ "%" ++ sq) r₂).map
        (fun p => (⟨o, some p.1⟩, p.2))
    | .oper .percent :: r₂ =>
      (expectIntValue ("value after " ++ sq ++ "mod" ++ sq ++ " or " ++ sq ++ "%" ++ sq) r₂).map
        (fun p => (⟨o, some p.1⟩, p.2))
    | _ => .ok (⟨o, none⟩, rest)
  | ts => .error (expectedErr "an operand (n, i, f, t, v, w, c, e)" ts.head?)

/-- The range-list loop of `parseRangeList` of `parser.ts`
(`range_list = (range | value) (',' range_list)?`); every iteration consumes
at least one token, so fuel `ts.length + 1` always suffices. -/
def rangeLoopF : Nat → List Token → P (List RangeItem)
  | 0, _ => .error "out of fuel"
  | fuel + 1, ts =>
    match expectIntValue "value or range" ts with
    | .error e => .error e
    | .ok (lo, rest) =>
      match rest with
      | .oper .dotdot :: r₂ =>
        match expectIntValue ("value after " ++ sq ++ ".." ++ sq) r₂ with
        | .error e => .error e
        | .ok (hi, r₃) =>
          match r₃ with
          | .oper .comma :: r₄ =>
            (rangeLoopF fuel r₄).map (fun p => (.range ⟨lo, hi⟩ :: p.1, p.2))
          | _ => .ok ([.range ⟨lo, hi⟩], r₃)
      | .oper .comma :: r₂ =>
        (rangeLoopF fuel r₂).map (fun p => (.value lo :: p.1, p.2))
      | _ => .ok ([.value lo], rest)

/-- `parseRangeList` of `parser.ts`. -/
def parseRangeList (ts : List Token) : P (List RangeItem) :=
  rangeLoopF (ts.length + 1) ts

/-- `parseRelation` of `parser.ts`: `expr` followed by `is ('not')? value`,
`('not')? 'in' | '=' | '!='` and a range list, or `('not')? 'within'` and a
range list. -/
def parseRelation (ts : List Token) : P Relation :=
  match parseExpr ts with
  | .error e => .error e
  | .ok (expr, r₁) =>
    match r₁ with
    | .keyword .kIs :: r₂ =>
      match r₂ with
      | .keyword .kNot :: r₃ =>
        (expectIntValue ("value after " ++ sq ++ "is not" ++ sq) r₃).map
          (fun p => (⟨expr, [.value p.1], true, false⟩, p.2))
      | _ =>
        (expectIntValue ("value or " ++ sq ++ "not" ++ sq ++ " after " ++ sq ++ "is" ++ sq) r₂).map
          (fun p => (⟨expr, [.value p.1], false, false⟩, p.2))
    | .keyword .kNot :: r₂ =>
      match r₂ with
      | .keyword .kIn :: r₃ =>
        (parseRangeList r₃).map (fun p => (⟨expr, p.1, true, false⟩, p.2))
      | .keyword .kWithin :: r₃ =>
        (parseRangeList r₃).map (fun p => (⟨expr, p.1, true, true⟩, p.2))
      | r₃ =>
        .error (expectedErr
          (sq ++ "in" ++ sq ++ " or " ++ sq ++ "within" ++ sq ++ " after " ++ sq ++ "not" ++ sq)
          r₃.head?)
    | .oper .neq :: r₂ =>
      (parseRangeList r₂).map (fun p => (⟨expr, p.1, true, false⟩, p.2))
    | .keyword .kWithin :: r₂ =>
      (parseRangeList r₂).map (fun p => (⟨expr, p.1, false, true⟩, p.2))
    | .keyword .kIn :: r₂ =>
      (parseRangeList r₂).map (fun p => (⟨expr, p.1, false, false⟩, p.2))
    | .oper .eq :: r₂ =>
      (parseRangeList r₂).map (fun p => (⟨expr, p.1, false, false⟩, p.2))
    | r₂ =>
      .error (expectedErr
        (sq ++ "=" ++ sq ++ ", " ++ sq ++ "!=" ++ sq ++ ", " ++ sq ++ "is" ++ sq ++ ", " ++
          sq ++ "in" ++ sq ++ ", " ++ sq ++ "within" ++ sq ++ " or " ++ sq ++ "not" ++ sq)
        r₂.head?)

/-- The `while accept('and')` loop of `parseAndCondition`; every iteration
consumes at least one token. -/
def andLoopF : Nat → List Token → P (List Relation)
  | 0, _ => .error "out of fuel"
  | fuel + 1, ts =>
    match parseRelation ts with
    | .error e => .error e
    | .ok (r, rest) =>
      match rest with
      | .keyword .kAnd :: r₂ => (andLoopF fuel r₂).map (fun p => (r :: p.1, p.2))
      | _ => .ok ([r], rest)

/-- `parseAndCondition` of `parser.ts`: a single relation, or an
`AndCondition` when an `and` follows. -/
def parseAndCondition (ts : List Token) : P Alternative :=
  match parseRelation ts with
  | .error e => .error e
  | .ok (r, rest) =>
    match rest with
    | .keyword .kAnd :: r₂ =>
      (andLoopF (r₂.length + 1) r₂).map (fun p => (.andCond (r :: p.1), p.2))
    | _ => .ok (.relC r, rest)

/-- The `while accept('or')` loop of `parseCondition`; every iteration
consumes at least one token. -/
def orLoopF : Nat → List Token → P (List Alternative)
  | 0, _ => .error "out of fuel"
  | fuel + 1, ts =>
    match parseAndCondition ts with
    | .error e => .error e
    | .ok (a, rest) =>
      match rest with
      | .keyword .kOr :: r₂ => (orLoopF fuel r₂).map (fun p => (a :: p.1, p.2))
      | _ => .ok ([a], rest)

/-- `parseCondition` of `parser.ts`: an alternative, or an `OrCondition`
when an `or` follows. -/
def parseCondition (ts : List Token) : P Condition :=
  match parseAndCondition ts with
  | .error e => .error e
  | .ok (a, rest) =>
    match rest with
    | .keyword .kOr :: r₂ =>
      (orLoopF (r₂.length + 1) r₂).map (fun p => (.orCond (a :: p.1), p.2))
    | _ => .ok (a.toCondition, rest)

/-- `expectSampleValue` of `parser.ts`: the next token must be a value
token; its numeric value is `parseInt` for integer tokens and `parseFloat`
of the source with `c` replaced by `e` otherwise. -/
def expectSampleValue (message : String) : List Token → P SampleValue
  | .value source isInt :: rest =>
    .ok (⟨source,
      if isInt then (natOfDigits source.data : ℚ)
      else jsParseFloatQ (String.mk (replaceFirstC source.data))⟩, rest)
  | ts => .error (expectedErr message ts.head?)

/-- The sample-list loop of `parseSampleList` of `parser.ts`; `first` is
true on the first iteration (`ranges.length === 0` in the source). -/
def sampleLoopF : Nat → Bool → List Token → P (List SampleItem × Bool)
  | 0, _, _ => .error "out of fuel"
  | fuel + 1, first, ts =>
    match ts with
    | .oper .ellipsis :: rest =>
      if first then
        .error ("Expected at least one sample value or range before " ++ sq ++ "..." ++ sq)
      else .ok (([], true), rest)
    | _ =>
      match expectSampleValue "sample value or sample range" ts with
      | .error e => .error e
      | .ok (lo, rest) =>
        match rest with
        | .oper .tilde :: r₂ =>
          match expectSampleValue ("sample value after " ++ sq ++ "~" ++ sq) r₂ with
          | .error e => .error e
          | .ok (hi, r₃) =>
            match r₃ with
            | .oper .comma :: r₄ =>
              (sampleLoopF fuel false r₄).map (fun p => ((.range ⟨lo, hi⟩ :: p.1.1, p.1.2), p.2))
            | _ => .ok (([.range ⟨lo, hi⟩], false), r₃)
        | .oper .comma :: r₂ =>
          (sampleLoopF fuel false r₂).map (fun p => ((.value lo :: p.1.1, p.1.2), p.2))
        | _ => .ok (([.value lo], false), rest)

/-- `parseSampleList` of `parser.ts`. -/
def parseSampleList (ts : List Token) : P SampleList :=
  (sampleLoopF (ts.length + 1) true ts).map (fun p => (⟨p.1.1, p.1.2⟩, p.2))

/-- `parseSamples` of `parser.ts`: an optional `@integer` list followed by
an optional `@decimal` list; `null` (`none`) when neither is present. -/
def parseSamples (ts : List Token) : P (Option Samples) :=
  match ts with
  | .sampleCat true :: r₁ =>
    match parseSampleList r₁ with
    | .error e => .error e
    | .ok (ints, r₂) =>
      match r₂ with
      | .sampleCat false :: r₃ =>
        (parseSampleList r₃).map (fun p => (some ⟨some ints, some p.1⟩, p.2))
      | _ => .ok (some ⟨some ints, none⟩, r₂)
  | .sampleCat false :: r₁ =>
    (parseSampleList r₁).map (fun p => (some ⟨none, some p.1⟩, p.2))
  | _ => .ok (none, ts)

/-- `parseRuleBody` of `parser.ts`: a condition followed by optional
samples. -/
def parseRuleBody (ts : List Token) : P PluralRule :=
  match parseCondition ts with
  | .error e => .error e
  | .ok (condition, r₁) => (parseSamples r₁).map (fun p => (⟨condition, p.1⟩, p.2))

/-- `expectEOF` of `parser.ts`. -/
def expectEOF : List Token → Except String Unit
  | [] => .ok ()
  | t :: _ => .error (expectedErr "end-of-file" (some t))

/-- `parseRule` of `parser.ts`: a standalone `condition samples` rule; the
whole input must be consumed. -/
def parseRule (source : String) : Except String PluralRule :=
  match lexAll source with
  | .error e => .error e
  | .ok ts =>
    match parseRuleBody ts with
    | .error e => .error e
    | .ok (rule, rest) => (expectEOF rest).map (fun _ => rule)

/-- The category name accepted at the start of a rule: a plural-category
token, or any keyword or operand spelling reused as a name (`parseRuleSet`
of `parser.ts`). -/
def categoryOfToken : Token → Option String
  | .category name => some name
  | .keyword k => some k.str
  | .operand o => some o.str
  | _ => none

/-- One iteration of the `do ... while (accept(';'))` loop of
`parseRuleSet`: read `category ':'`, then samples for `other` (rejecting a
second `other`) or a rule body for any other category (rejecting a
duplicate).  Returns the updated `(rules, other, otherSeen)` and the rest of
the tokens. -/
def parseRuleEntry (rules : List (String × PluralRule)) (other : Option Samples)
    (otherSeen : Bool) :
    List Token → Except String ((List (String × PluralRule) × Option Samples × Bool) × List Token)
  | [] => .error (expectedErr "a plural category" none)
  | t :: r₁ =>
    match categoryOfToken t with
    | none => .error (expectedErr "a plural category" (some t))
    | some category =>
      match r₁ with
      | .oper .colon :: r₂ =>
        if category = "other" then
          if otherSeen then
            .error ("Category " ++ sq ++ "other" ++ sq ++ " occurs more than once")
          else
            (parseSamples r₂).map (fun p => ((rules, p.1, true), p.2))
        else
          if (rules.map Prod.fst).contains category then
            .error ("Category " ++ sq ++ category ++ sq ++ " occurs more than once")
          else
            (parseRuleBody r₂).map (fun p => ((rules ++ [(category, p.1)], other, otherSeen), p.2))
      | r₂ =>
        .error (expectedErr (sq ++ ":" ++ sq ++ " after plural category") r₂.head?)

/-- The `do ... while (accept(';'))` loop of `parseRuleSet`; every iteration
consumes at least one token. -/
def ruleSetLoopF : Nat → List (String × PluralRule) → Option Samples → Bool →
    List Token → Except String PluralRuleSet
  | 0, _, _, _, _ => .error "out of fuel"
  | fuel + 1, rules, other, otherSeen, ts =>
    match parseRuleEntry rules other otherSeen ts with
    | .error e => .error e
    | .ok ((rules', other', otherSeen'), rest) =>
      match rest with
      | .oper .semi :: r₂ => ruleSetLoopF fuel rules' other' otherSeen' r₂
      | _ => (expectEOF rest).map (fun _ => ⟨rules', other'⟩)

/-- `parseRuleSet` of `parser.ts`: an optional list of rules separated by
`;`; the whole input must be consumed. -/
def parseRuleSet (source : String) : Except String PluralRuleSet :=
  match lexAll source with
  | .error e => .error e
  | .ok ts =>
    match ts with
    | [] => .ok ⟨[], none⟩
    | _ :: _ => ruleSetLoopF (ts.length + 1) [] none false ts

/-- The regex `FractionPattern` `/\.(\d+)/` of `operands.ts`: capture group
1 of the first match (a dot followed by at least one digit), scanning left
to right. -/
def fracCapture : List Char → Option (List Char)
  | [] => none
  | [_] => none
  | chr :: d :: r =>
    if chr = '.' ∧ isDigitC d then some (d :: r.takeWhile isDigitC)
    else fracCapture (d :: r)

/-- `getFraction` of `operands.ts` (the empty string when there is no
match). -/
def getFraction (source : String) : List Char :=
  (fracCapture source.data).getD []

/-- `.replace(/0+$/, '')`: strip trailing zero characters. -/
def stripZeros (l : List Char) : List Char :=
  (l.reverse.dropWhile (fun chr => chr = '0')).reverse

/-- The regex `ExponentPattern` `/[eE][+\-](\d+)/` of `operands.ts`: capture
group 1 of the first match (`e` or `E`, then an explicit sign, then at least
one digit), scanning left to right.  Note that the sign is required and is
not part of the capture. -/
def expCapture : List Char → Option (List Char)
  | chr :: s :: d :: r =>
    if (chr = 'e' ∨ chr = 'E') ∧ (s = '+' ∨ s = '-') ∧ isDigitC d then
      some (d :: r.takeWhile isDigitC)
    else expCapture (s :: d :: r)
  | _ => none

/-- `getExponent` of `operands.ts` (`0` when there is no match; the capture
contains digits only, so the value is never negative). -/
def getExponent (source : String) : Nat :=
  match expCapture source.data with
  | some ds => natOfDigits ds
  | none => 0

/-- `Operands` of `operands.ts`, with every lazy getter evaluated. -/
structure Operands where
  n : ℚ
  i : ℤ
  v : ℕ
  w : ℕ
  f : ℕ
  t : ℕ
  c : ℕ
  e : ℕ
deriving Repr

instance : DecidableEq Operands := fun a b =>
  decidable_of_iff
    (a.n = b.n ∧ a.i = b.i ∧ a.v = b.v ∧ a.w = b.w ∧ a.f = b.f ∧ a.t = b.t ∧
      a.c = b.c ∧ a.e = b.e)
    ⟨fun h => by cases a; cases b; simp_all, fun h => by subst h; simp⟩

/-- `getOperands` of `operands.ts` for a string input: the magnitude is
`Math.abs(parseFloat(input))` and the retained text is the input itself.
(For a `number` input the source instead takes `Math.abs(input)` and renders
the text with `String(input)`; since `parseFloat(String(x))` returns `x` for
every finite JS number `x`, that path factors through this one with the
rendered text as the string.)  Non-finite magnitudes (NaN and the
infinities) are rejected with the source's error message. -/
def getOperands (input : String) : Except String Operands :=
  match jsParseFloat input with
  | .fin q =>
    .ok
      { n := jsAbs q
        i := jsToInt32 (jsAbs q)
        v := (getFraction input).length
        w := (stripZeros (getFraction input)).length
        f := natOfDigits (getFraction input)
        t := natOfDigits (stripZeros (getFraction input))
        c := getExponent input
        e := getExponent input }
  | .nan => .error ("Number is not finite: " ++ input)
  | .inf _ => .error ("Number is not finite: " ++ input)

/-- Reading `op[expr.operand]` in `evaluateExpr` of `evaluate.ts`. -/
def operandValue (op : Operands) : Operand → ℚ
  | .n => op.n
  | .i => (op.i : ℚ)
  | .f => (op.f : ℚ)
  | .t => (op.t : ℚ)
  | .v => (op.v : ℚ)
  | .w => (op.w : ℚ)
  | .c => (op.c : ℚ)
  | .e => (op.e : ℚ)

/-- JavaScript `%` on finite numbers with a non-zero divisor: the remainder
takes the sign of the dividend. -/
def jsMod (a b : ℚ) : ℚ := a - b * (jsTrunc (a / b) : ℚ)

/-- `evaluateExpr` of `evaluate.ts`: the operand's value, reduced by
`% modDivisor` when a divisor is present.  `none` represents NaN, which
arises exactly from `% 0`. -/
def evaluateExpr (expr : Expr) (op : Operands) : Option ℚ :=
  match expr.modDivisor with
  | some d =>
    if d.value = 0 then none
    else some (jsMod (operandValue op expr.operand) (d.value : ℚ))
  | none => some (operandValue op expr.operand)

/-- `Number.isInteger` on a finite value. -/
def isIntegerQ (q : ℚ) : Bool := q.den = 1

/-- `rangeContains` of `evaluate.ts`: a non-integer value never matches a
range unless `within` is set; otherwise inclusive bound containment. -/
def rangeContains (r : Range) (value : ℚ) (within : Bool) : Bool :=
  if !within && !isIntegerQ value then false
  else decide ((r.start.value : ℚ) ≤ value) && decide (value ≤ (r.stop.value : ℚ))

/-- One test of the range loop in `testRelation` of `evaluate.ts`: `===`
comparison against a bare value, `rangeContains` for a range.  NaN (`none`)
compares false either way, as in JavaScript. -/
def rangeItemMatches (within : Bool) (value : Option ℚ) : RangeItem → Bool
  | .value v =>
    match value with
    | none => false
    | some q => decide ((v.value : ℚ) = q)
  | .range r =>
    match value with
    | none => false
    | some q => rangeContains r q within

/-- `testRelation` of `evaluate.ts`: does any range entry match, XORed with
`negated`. -/
def testRelation (rel : Relation) (op : Operands) : Bool :=
  (rel.ranges.any (rangeItemMatches rel.within (evaluateExpr rel.expr op))) != rel.negated

/-- `testCondition` of `evaluate.ts` restricted to an alternative
(`AndCondition | Relation`). -/
def testAlternative (a : Alternative) (op : Operands) : Bool :=
  match a with
  | .andCond relations => relations.all (fun r => testRelation r op)
  | .relC r => testRelation r op

/-- `testCondition` of `evaluate.ts`: an `OrCondition` is true if any
alternative is, an `AndCondition` if every relation is. -/
def testCondition (cond : Condition) (op : Operands) : Bool :=
  match cond with
  | .orCond alternatives => alternatives.any (fun a => testAlternative a op)
  | .andCond relations => relations.all (fun r => testRelation r op)
  | .relC r => testRelation r op

/-- `testPluralRule` of `evaluate.ts`. -/
def testPluralRule (rule : PluralRule) (n : String) : Except String Bool :=
  (getOperands n).map (fun op => testCondition rule.condition op)

/-- The `for (const [category, rule] of rules.rules)` loop of
`getPluralCategory`: the first category whose condition matches, else
`'other'`. -/
def categoryLoop (op : Operands) : List (String × PluralRule) → String
  | [] => "other"
  | (category, rule) :: rest =>
    if testCondition rule.condition op then category else categoryLoop op rest

/-- `getPluralCategory` of `evaluate.ts`: when the rule map is non-empty,
derive the operands (which can fail) and walk the categories in insertion
order; otherwise `'other'` without deriving operands. -/
def getPluralCategory (rules : PluralRuleSet) (n : String) : Except String String :=
  match rules.rules with
  | [] => .ok "other"
  | _ :: _ => (getOperands n).map (fun op => categoryLoop op rules.rules)

deriving instance DecidableEq for Except

/-- A concrete rule `n = 1` (the parse tree of `parseRule "n = 1"`). -/
def demoRule : PluralRule :=
  ⟨.relC ⟨⟨.n, none⟩, [.value ⟨"1", 1⟩], false, false⟩, none⟩

/-- A concrete rule set (the parse tree of `parseRuleSet "one: n = 1"`). -/
def demoRuleSet : PluralRuleSet := ⟨[("one", demoRule)], none⟩

/-- The operands of the input `"1"`. -/
def opOne : Operands := ⟨1, 1, 0, 0, 0, 0, 0, 0⟩

/-- The operands of the input `"2"`. -/
def opTwo : Operands := ⟨2, 2, 0, 0, 0, 0, 0, 0⟩

/-- A concrete range node for `1..3`. -/
def demoRange : Range := ⟨⟨"1", 1⟩, ⟨"3", 3⟩⟩

/-- The decimal exponent as written in a numeric text, following the spec's
words (for comparison against the code's `getExponent`): the value of the
digits after the first exponent marker — `e`, `E`, or CLDR's compact marker
`c` — with an optional sign applied, and `0` if the text has no exponent
part.  This follows the claim's reading, not the source's computation. -/
def specWrittenExponentAux : List Char → ℤ
  | [] => 0
  | chr :: r =>
    if chr = 'e' ∨ chr = 'E' ∨ chr = 'c' then
      match r with
      | '-' :: d :: rr =>
        if isDigitC d then -(natOfDigits (d :: rr.takeWhile isDigitC) : ℤ)
        else specWrittenExponentAux r
      | '+' :: d :: rr =>
        if isDigitC d then (natOfDigits (d :: rr.takeWhile isDigitC) : ℤ)
        else specWrittenExponentAux r
      | d :: rr =>
        if isDigitC d then (natOfDigits (d :: rr.takeWhile isDigitC) : ℤ)
        else specWrittenExponentAux r
      | [] => 0
    else specWrittenExponentAux r

/-- The decimal exponent written in a numeric text (spec wording); see
`specWrittenExponentAux`. -/
def specWrittenExponent (source : String) : ℤ :=
  specWrittenExponentAux source.data

theorem length_dropWhile_le (p : α → Bool) (l : List α) :
    (l.dropWhile p).length ≤ l.length :=
  (List.dropWhile_sublist p).length_le

theorem lexFrac_snd_length (l : List Char) : (lexFrac l).2.length ≤ l.length := by
  unfold lexFrac
  split
  next d r =>
    split
    · have := length_dropWhile_le isDigitC r
      simp
      omega
    · simp
  next => simp

theorem lexExp_snd_length (l : List Char) : (lexExp l).2.length ≤ l.length := by
  unfold lexExp
  split
  next m d r =>
    split
    · have := length_dropWhile_le isDigitC r
      simp
      omega
    · simp
  next => simp

theorem lexNumber_snd_length (ch : Char) (rest : List Char) :
    (lexNumber ch rest).2.length ≤ rest.length := by
  unfold lexNumber
  have h1 := length_dropWhile_le isDigitC rest
  have h2 := lexFrac_snd_length (rest.dropWhile isDigitC)
  have h3 := lexExp_snd_length (lexFrac (rest.dropWhile isDigitC)).2
  simp only []
  omega

theorem lexBang_length {rest r : List Char} (h : lexBang rest = .ok r) :
    r.length < rest.length := by
  unfold lexBang at h
  split at h
  · cases h; simp
  · cases h

theorem lexDots_length {rest r : List Char} {o : Op} (h : lexDots rest = .ok (o, r)) :
    r.length < rest.length := by
  unfold lexDots at h
  split at h
  · cases h; simp; omega
  · cases h; simp
  · cases h

set_option maxHeartbeats 1000000 in
/-- The result of `tokensF` does not depend on the fuel, as long as the fuel
exceeds the length of the input. -/
theorem tokensF_congr : ∀ (f₁ f₂ : Nat) (l : List Char),
    l.length < f₁ → l.length < f₂ → tokensF f₁ l = tokensF f₂ l := by
  intro f₁
  induction f₁ with
  | zero => intro f₂ l h₁ h₂; omega
  | succ f₁ ih =>
    intro f₂ l h₁ h₂
    cases f₂ with
    | zero => omega
    | succ f₂ =>
    cases l with
    | nil => rfl
    | cons ch rest =>
      have hr : rest.length < f₁ := by simp at h₁; omega
      have hr₂ : rest.length < f₂ := by simp at h₂; omega
      have hdw : (rest.dropWhile isLowerAZ).length ≤ rest.length :=
        length_dropWhile_le _ _
      have hnum := lexNumber_snd_length ch rest
      simp only [tokensF]
      split
      · exact ih f₂ rest hr hr₂
      split
      · split
        · rfl
        · exact congrArg _ (ih f₂ _ (by omega) (by omega))
      split
      · split
        · split
          · rfl
          · exact congrArg _ (ih f₂ _ (by omega) (by omega))
        · rfl
      split
      · exact congrArg _ (ih f₂ _ (by omega) (by omega))
      split
      · split
        next r heq =>
          have hb := lexBang_length heq
          exact congrArg _ (ih f₂ r (by omega) (by omega))
        next => rfl
      split
      · split
        next o r heq =>
          have hd := lexDots_length heq
          exact congrArg _ (ih f₂ r (by omega) (by omega))
        next => rfl
      · split
        · exact congrArg _ (ih f₂ rest hr hr₂)
        · rfl

theorem categoryLoop_eq_find (op : Operands) (l : List (String × PluralRule)) :
    categoryLoop op l =
      ((l.find? (fun p => testCondition p.2.condition op)).map Prod.fst).getD "other" := by
  induction l with
  | nil => rfl
  | cons p rest ih =>
    obtain ⟨cat, rule⟩ := p
    rw [categoryLoop, List.find?]
    cases h : testCondition rule.condition op <;> simp [h, ih]

theorem categoryLoop_of_no_match (op : Operands) (l : List (String × PluralRule))
    (h : ∀ p ∈ l, testCondition p.2.condition op = false) :
    categoryLoop op l = "other" := by
  induction l with
  | nil => rfl
  | cons p rest ih =>
    obtain ⟨cat, rule⟩ := p
    rw [categoryLoop]
    rw [h (cat, rule) (by simp)]
    exact ih (fun q hq => h q (by simp [hq]))

/-- C1, counterexample: the claim says `getPluralCategory` never fails for
any rule set and any number-or-text input, but with the (parsed, non-empty)
rule set `one: n = 1` and the input `"abc"` — whose numeric value is NaN —
operand derivation throws, so `getPluralCategory` fails with the error
`Number is not finite: abc`. -/
theorem getPluralCategory_fails_on_nan :
    (parseRuleSet "one: n = 1").map (fun rs => getPluralCategory rs "abc")
      = .ok (.error "Number is not finite: abc") := by decide

/-- C1, amended: for every rule set and every input whose operands can be
derived (finite numeric value), `getPluralCategory` succeeds, and returns
`"other"` when no category's condition matches. -/
theorem getPluralCategory_total_on_finite :
    ∀ (rules : PluralRuleSet) (n : String) (op : Operands),
    getOperands n = .ok op →
    (getPluralCategory rules n).isOk = true ∧
    ((∀ p ∈ rules.rules, testCondition p.2.condition op = false) →
      getPluralCategory rules n = .ok "other") := by
  intro rules n op h
  rw [getPluralCategory]
  cases hr : rules.rules with
  | nil => exact ⟨rfl, fun _ => rfl⟩
  | cons q l =>
    rw [h]
    refine ⟨rfl, fun hnone => ?_⟩
    rw [Except.map, categoryLoop_of_no_match op (q :: l) hnone]

/-- C1 witness: with the rule set `one: n = 1` and input `"2"` (operands
derivable, no category matches), the evaluation succeeds and returns
`"other"`. -/
theorem getPluralCategory_total_on_finite_witness :
    (getPluralCategory demoRuleSet "2").isOk = true ∧
      getPluralCategory demoRuleSet "2" = .ok "other" :=
  ⟨(getPluralCategory_total_on_finite demoRuleSet "2" opTwo (by with_unfolding_all decide)).1,
   (getPluralCategory_total_on_finite demoRuleSet "2" opTwo
     (by with_unfolding_all decide)).2 (by with_unfolding_all decide)⟩

/-- C2: for every rule set and every input with derivable operands,
`getPluralCategory` returns the first category in insertion order whose
condition evaluates true against those operands, and `"other"` when none
matches (in particular for the empty rule set). -/
theorem getPluralCategory_first_match :
    ∀ (rules : PluralRuleSet) (n : String) (op : Operands),
    getOperands n = .ok op →
    getPluralCategory rules n =
      .ok (((rules.rules.find? (fun p => testCondition p.2.condition op)).map
        Prod.fst).getD "other") := by
  intro rules n op h
  match hr : rules.rules with
  | [] => rw [getPluralCategory, hr]; rfl
  | q :: l =>
    rw [getPluralCategory, hr, h, Except.map, categoryLoop_eq_find]

/-- C2 witness: with the rule set `one: n = 1` and input `"1"`, the first
(and only) match is `one`. -/
theorem getPluralCategory_first_match_witness :
    getPluralCategory demoRuleSet "1" = .ok "one" :=
  (getPluralCategory_first_match demoRuleSet "1" opOne
    (by with_unfolding_all decide)).trans (by with_unfolding_all decide)

/-- C3: a range in a relation with `within = false` matches only integer
values, while `within = true` admits any value inside the inclusive bounds;
concretely, `testPluralRule (parseRule "n in 1..3") 1.5` is `false` and
`testPluralRule (parseRule "n within 1..3") 1.5` is `true` (the number
`1.5` is written here as its JavaScript string rendering `"1.5"`). -/
theorem within_controls_non_integer_range_match :
    (∀ (r : Range) (q : ℚ), isIntegerQ q = false → rangeContains r q false = false) ∧
    (∀ (r : Range) (q : ℚ), rangeContains r q true =
      (decide ((r.start.value : ℚ) ≤ q) && decide (q ≤ (r.stop.value : ℚ)))) ∧
    (parseRule "n in 1..3").map (fun r => testPluralRule r "1.5") = .ok (.ok false) ∧
    (parseRule "n within 1..3").map (fun r => testPluralRule r "1.5") = .ok (.ok true) := by
  refine ⟨fun r q h => ?_, fun r q => ?_,
    by with_unfolding_all decide, by with_unfolding_all decide⟩
  · rw [rangeContains]
    simp [h]
  · rw [rangeContains]
    simp

/-- C3 witness: `1.5` is not an integer, and the range `1..3` with
`within = false` rejects it. -/
theorem within_controls_non_integer_range_match_witness :
    rangeContains demoRange (3 / 2 : ℚ) false = false :=
  within_controls_non_integer_range_match.1 demoRange (3 / 2) (by with_unfolding_all decide)

/-- C4: evaluating the code at the failing input.  For the input
`2147483648` (2^31, here via its text rendering), the derived operand `i`
is `-2147483648` — the 32-bit wrap-around of `n | 0` — although the
magnitude `n` is `2147483648` and its truncation toward zero is
`2147483648`, as the claim (and the operand documentation) require. -/
theorem operand_i_wraps_at_2_pow_31 :
    (match getOperands "2147483648" with
      | .ok op => (op.n.num, op.n.den, op.i)
      | .error _ => ((0 : ℤ), (0 : ℕ), (0 : ℤ))) = (2147483648, 1, -2147483648) ∧
    jsTrunc (2147483648 : ℚ) = 2147483648 := by
  constructor
  · with_unfolding_all decide
  · with_unfolding_all decide

/-- C10: when the rules map is empty, `getPluralCategory` returns `"other"`
for every input — including non-numeric text and non-finite values — since
operand derivation is never reached. -/
theorem getPluralCategory_empty_rules :
    ∀ (rules : PluralRuleSet) (n : String), rules.rules = [] →
    getPluralCategory rules n = .ok "other" := by
  intro rules n h
  rw [getPluralCategory, h]

/-- C10 witness: the empty rule set maps the non-finite input `"NaN"` to
`"other"` without failing. -/
theorem getPluralCategory_empty_rules_witness :
    getPluralCategory ⟨[], none⟩ "NaN" = .ok "other" :=
  getPluralCategory_empty_rules ⟨[], none⟩ "NaN" rfl

/-- C9: `parseRuleSet` rejects a duplicated category name — including a
second `other` — with a parse error whose message contains "occurs more than
once"; concretely for `"foo: n = 1; foo: n = 2"` and `"other: ; other: "`. -/
theorem parseRuleSet_duplicate_category :
    (parseRuleSet "foo: n = 1; foo: n = 2" =
      .error ("Category " ++ sq ++ "foo" ++ sq ++ " occurs more than once")) ∧
    ("occurs more than once".data <:+:
      ("Category " ++ sq ++ "foo" ++ sq ++ " occurs more than once").data) ∧
    (parseRuleSet "other: ; other: " =
      .error ("Category " ++ sq ++ "other" ++ sq ++ " occurs more than once")) ∧
    ("occurs more than once".data <:+:
      ("Category " ++ sq ++ "other" ++ sq ++ " occurs more than once").data) := by
  refine ⟨by decide, by decide, by decide, by decide⟩

theorem exceptMap_map {ε α β γ} (x : Except ε α) (f : α → β) (g : β → γ) :
    (x.map f).map g = x.map (fun a => g (f a)) := by
  cases x <;> rfl

theorem tokensF_nil (fuel : Nat) (h : 0 < fuel) : tokensF fuel [] = .ok [] := by
  cases fuel with
  | zero => omega
  | succ fuel => rfl

theorem tokens_word1 (c : Char) (t : Token) (h1 : isLowerAZ c = true)
    (h2 : jsWhitespace c = false) (hw : wordToken (String.mk [c]) = .ok t)
    (l : List Char) :
    tokens (c :: ' ' :: l) = (tokens l).map (t :: ·) := by
  have hs : isLowerAZ ' ' = false := by decide
  have hws : jsWhitespace ' ' = true := by decide
  simp only [tokens, List.length_cons, tokensF, h1, h2, hs, hws,
    List.takeWhile_cons, List.dropWhile_cons, Bool.false_eq_true, if_true,
    if_false, ite_true, ite_false, hw]

theorem tokens_op_eq (l : List Char) :
    tokens ('=' :: ' ' :: l) = (tokens l).map (Token.oper .eq :: ·) := by
  simp only [tokens, List.length_cons, tokensF]
  simp [jsWhitespace, isLowerAZ, isDigitC, singleOp]

theorem tokens_op_neq (l : List Char) :
    tokens ('!' :: '=' :: ' ' :: l) = (tokens l).map (Token.oper .neq :: ·) := by
  simp only [tokens, List.length_cons, tokensF]
  simp [jsWhitespace, isLowerAZ, isDigitC, singleOp, lexBang]
  rw [show tokensF (l.length + 1 + 1 + 1) (' ' :: l) = tokensF (l.length + 1 + 1) l by
    simp [tokensF, jsWhitespace]]
  rw [tokensF_congr (l.length + 1 + 1) (l.length + 1) l (by omega) (by omega)]

theorem tokens_kw_in (l : List Char) :
    tokens ('i' :: 'n' :: ' ' :: l) = (tokens l).map (Token.keyword .kIn :: ·) := by
  simp only [tokens, List.length_cons, tokensF]
  simp [jsWhitespace, isLowerAZ, isDigitC, wordToken, keywordOfString,
    operandOfString, sampleCatOfString]
  rw [tokensF_congr (l.length + 1 + 1) (l.length + 1) l (by omega) (by omega)]

theorem tokens_kw_not (l : List Char) :
    tokens ('n' :: 'o' :: 't' :: ' ' :: l) = (tokens l).map (Token.keyword .kNot :: ·) := by
  simp only [tokens, List.length_cons, tokensF]
  simp [jsWhitespace, isLowerAZ, isDigitC, wordToken, keywordOfString,
    operandOfString, sampleCatOfString]
  rw [tokensF_congr (l.length + 1 + 1 + 1) (l.length + 1) l (by omega) (by omega)]

theorem tokens_operand_word (o : Operand) (l : List Char) :
    tokens (o.str.data ++ ' ' :: l) = (tokens l).map (Token.operand o :: ·) := by
  cases o <;> exact tokens_word1 _ _ (by decide) (by decide) (by decide) l

theorem lexAll_eq_front (o : Operand) (L : String) :
    lexAll (o.str ++ " = " ++ L) =
      (tokens L.data).map (fun ts => Token.operand o :: Token.oper .eq :: ts) := by
  show tokens (o.str ++ " = " ++ L).data = _
  rw [String.data_append, String.data_append, List.append_assoc]
  show tokens (o.str.data ++ ' ' :: '=' :: ' ' :: L.data) = _
  rw [tokens_operand_word, tokens_op_eq, exceptMap_map]

theorem lexAll_in_front (o : Operand) (L : String) :
    lexAll (o.str ++ " in " ++ L) =
      (tokens L.data).map (fun ts => Token.operand o :: Token.keyword .kIn :: ts) := by
  show tokens (o.str ++ " in " ++ L).data = _
  rw [String.data_append, String.data_append, List.append_assoc]
  show tokens (o.str.data ++ ' ' :: 'i' :: 'n' :: ' ' :: L.data) = _
  rw [tokens_operand_word, tokens_kw_in, exceptMap_map]

theorem lexAll_neq_front (o : Operand) (L : String) :
    lexAll (o.str ++ " != " ++ L) =
      (tokens L.data).map (fun ts => Token.operand o :: Token.oper .neq :: ts) := by
  show tokens (o.str ++ " != " ++ L).data = _
  rw [String.data_append, String.data_append, List.append_assoc]
  show tokens (o.str.data ++ ' ' :: '!' :: '=' :: ' ' :: L.data) = _
  rw [tokens_operand_word, tokens_op_neq, exceptMap_map]

theorem lexAll_not_in_front (o : Operand) (L : String) :
    lexAll (o.str ++ " not in " ++ L) =
      (tokens L.data).map
        (fun ts => Token.operand o :: Token.keyword .kNot :: Token.keyword .kIn :: ts) := by
  show tokens (o.str ++ " not in " ++ L).data = _
  rw [String.data_append, String.data_append, List.append_assoc]
  show tokens (o.str.data ++ ' ' :: 'n' :: 'o' :: 't' :: ' ' :: 'i' :: 'n' :: ' ' :: L.data) = _
  rw [tokens_operand_word, tokens_kw_not, tokens_kw_in, exceptMap_map, exceptMap_map]

/-- C7: for every operand letter and every range-list text `L`, `op = L` and
`op in L` parse to identical trees, and `op != L` and `op not in L` parse to
identical trees; at the relation level, `=`/`in` produce
`negated = false, within = false` and `!=`/`not in` produce
`negated = true, within = false`. -/
theorem eq_in_neq_notin_synonyms :
    ∀ (o : Operand) (L : String),
    parseRule (o.str ++ " = " ++ L) = parseRule (o.str ++ " in " ++ L) ∧
    parseRule (o.str ++ " != " ++ L) = parseRule (o.str ++ " not in " ++ L) ∧
    (∀ ts r rest, parseRelation (.operand o :: .oper .eq :: ts) = .ok (r, rest) →
      r.negated = false ∧ r.within = false) ∧
    (∀ ts r rest, parseRelation (.operand o :: .oper .neq :: ts) = .ok (r, rest) →
      r.negated = true ∧ r.within = false) := by
  intro o L
  refine ⟨?_, ?_, ?_, ?_⟩
  · show (match lexAll (o.str ++ " = " ++ L) with
      | .error e => (Except.error e : Except String PluralRule)
      | .ok ts =>
        match parseRuleBody ts with
        | .error e => .error e
        | .ok (rule, rest) => (expectEOF rest).map (fun _ => rule)) =
      (match lexAll (o.str ++ " in " ++ L) with
      | .error e => (Except.error e : Except String PluralRule)
      | .ok ts =>
        match parseRuleBody ts with
        | .error e => .error e
        | .ok (rule, rest) => (expectEOF rest).map (fun _ => rule))
    rw [lexAll_eq_front, lexAll_in_front]
    cases tokens L.data with
    | error e => rfl
    | ok ts => rfl
  · show (match lexAll (o.str ++ " != " ++ L) with
      | .error e => (Except.error e : Except String PluralRule)
      | .ok ts =>
        match parseRuleBody ts with
        | .error e => .error e
        | .ok (rule, rest) => (expectEOF rest).map (fun _ => rule)) =
      (match lexAll (o.str ++ " not in " ++ L) with
      | .error e => (Except.error e : Except String PluralRule)
      | .ok ts =>
        match parseRuleBody ts with
        | .error e => .error e
        | .ok (rule, rest) => (expectEOF rest).map (fun _ => rule))
    rw [lexAll_neq_front, lexAll_not_in_front]
    cases tokens L.data with
    | error e => rfl
    | ok ts => rfl
  · intro ts r rest h
    have h' : (parseRangeList ts).map
        (fun p => ((⟨⟨o, none⟩, p.1, false, false⟩ : Relation), p.2)) = .ok (r, rest) := h
    cases hp : parseRangeList ts with
    | error e => rw [hp] at h'; cases h'
    | ok p =>
      rw [hp] at h'
      cases h'
      exact ⟨rfl, rfl⟩
  · intro ts r rest h
    have h' : (parseRangeList ts).map
        (fun p => ((⟨⟨o, none⟩, p.1, true, false⟩ : Relation), p.2)) = .ok (r, rest) := h
    cases hp : parseRangeList ts with
    | error e => rw [hp] at h'; cases h'
    | ok p =>
      rw [hp] at h'
      cases h'
      exact ⟨rfl, rfl⟩

/-- C7 witness: parsing the relation tokens of `n != 1` yields a relation
with `negated = true` and `within = false`. -/
theorem eq_in_neq_notin_synonyms_witness :
    ((⟨⟨.n, none⟩, [.value ⟨"1", 1⟩], true, false⟩ : Relation).negated = true ∧
      (⟨⟨.n, none⟩, [.value ⟨"1", 1⟩], true, false⟩ : Relation).within = false) :=
  (eq_in_neq_notin_synonyms .n "1").2.2.2 [.value "1" true]
    ⟨⟨.n, none⟩, [.value ⟨"1", 1⟩], true, false⟩ [] (by decide)

theorem parseRuleEntry_inv {rules : List (String × PluralRule)} {other otherSeen ts}
    {rules' : List (String × PluralRule)} {other' otherSeen' rest}
    (h : parseRuleEntry rules other otherSeen ts = .ok ((rules', other', otherSeen'), rest))
    (h1 : (rules.map Prod.fst).Nodup) (h2 : "other" ∉ rules.map Prod.fst) :
    (rules'.map Prod.fst).Nodup ∧ "other" ∉ rules'.map Prod.fst := by
  unfold parseRuleEntry at h
  split at h
  · cases h
  · split at h
    · cases h
    · split at h
      · split at h
        · split at h
          · cases h
          · cases hs : parseSamples ‹List Token› with
            | error e => rw [hs] at h; cases h
            | ok p =>
              rw [hs] at h
              cases h
              exact ⟨h1, h2⟩
        · split at h
          · cases h
          · rename_i hother hcont
            cases hb : parseRuleBody ‹List Token› with
            | error e => rw [hb] at h; cases h
            | ok p =>
              rw [hb] at h
              cases h
              constructor
              · simp only [List.map_append, List.map_cons, List.map_nil]
                rw [List.nodup_append]
                refine ⟨h1, List.nodup_singleton _, ?_⟩
                intro a ha hb'
                simp at hb'
                subst hb'
                exact hcont (List.contains_iff_exists_mem_beq.2 ⟨a, ha, by simp⟩)
              · simp only [List.map_append, List.map_cons, List.map_nil]
                intro hmem
                rcases List.mem_append.1 hmem with hm | hm
                · exact h2 hm
                · simp at hm
                  exact hother hm.symm
      · cases h

theorem ruleSetLoopF_inv :
    ∀ (fuel : Nat) (rules : List (String × PluralRule)) (other otherSeen ts)
      (rs : PluralRuleSet),
    ruleSetLoopF fuel rules other otherSeen ts = .ok rs →
    (rules.map Prod.fst).Nodup → "other" ∉ rules.map Prod.fst →
    (rs.rules.map Prod.fst).Nodup ∧ "other" ∉ rs.rules.map Prod.fst := by
  intro fuel
  induction fuel with
  | zero => intro rules other otherSeen ts rs h _ _; cases h
  | succ fuel ih =>
    intro rules other otherSeen ts rs h h1 h2
    rw [ruleSetLoopF] at h
    split at h
    · cases h
    next rules' other' seen' rest heq =>
      have hinv := parseRuleEntry_inv heq h1 h2
      split at h
      · exact ih _ _ _ _ _ h hinv.1 hinv.2
      · cases hrest : expectEOF rest with
        | error e => rw [hrest] at h; cases h
        | ok u => rw [hrest] at h; cases h; exact hinv

/-- C8: whenever `parseRuleSet` succeeds, the returned rule set has pairwise
distinct category names in its rules map, and the map never contains an
entry for `other` (whose samples live in the separate `other` field). -/
theorem parseRuleSet_unique_categories :
    ∀ (src : String) (rs : PluralRuleSet), parseRuleSet src = .ok rs →
    (rs.rules.map Prod.fst).Nodup ∧ "other" ∉ rs.rules.map Prod.fst := by
  intro src rs h
  unfold parseRuleSet at h
  cases hl : lexAll src with
  | error e => rw [hl] at h; cases h
  | ok ts =>
    rw [hl] at h
    cases ts with
    | nil => cases h; exact ⟨List.nodup_nil, by simp⟩
    | cons t ts' => exact ruleSetLoopF_inv _ _ _ _ _ _ h (by simp) (by simp)

/-- C8 witness: the rule set parsed from `one: n = 1` has distinct category
names, none of them `other`. -/
theorem parseRuleSet_unique_categories_witness :
    (demoRuleSet.rules.map Prod.fst).Nodup ∧ "other" ∉ demoRuleSet.rules.map Prod.fst :=
  parseRuleSet_unique_categories "one: n = 1" demoRuleSet (by decide)

theorem takeWhile_append_eq {p : Char → Bool} {l₁ l₂ : List Char}
    (h1 : ∀ x ∈ l₁, p x = true)
    (h2 : match l₂ with | [] => True | x :: _ => p x = false) :
    (l₁ ++ l₂).takeWhile p = l₁ := by
  rw [List.takeWhile_append_of_pos h1]
  cases l₂ with
  | nil => simp
  | cons x xs =>
    simp only at h2
    rw [List.takeWhile_cons_of_neg (by simp [h2])]
    simp

theorem expCapture_skip (c : Char) (l : List Char) (h2 : 2 ≤ l.length)
    (hc : c ≠ 'e' ∧ c ≠ 'E') : expCapture (c :: l) = expCapture l := by
  match l with
  | a :: b :: t =>
    rw [expCapture, if_neg]
    intro hfalse
    rcases hfalse.1 with h | h
    · exact hc.1 h
    · exact hc.2 h

theorem expCapture_no_marker :
    ∀ (l : List Char), (∀ c ∈ l, c ≠ 'e' ∧ c ≠ 'E') → expCapture l = none := by
  intro l
  induction l with
  | nil => intro _; rfl
  | cons c rest ih =>
    intro h
    cases rest with
    | nil => rfl
    | cons b t =>
      cases t with
      | nil => rfl
      | cons d t' =>
        rw [expCapture_skip c (b :: d :: t') (by simp) (h c (by simp))]
        exact ih (fun x hx => h x (by simp [hx]))

theorem expCapture_front (pre suf : List Char) (h2 : 2 ≤ suf.length)
    (h : ∀ c ∈ pre, c ≠ 'e' ∧ c ≠ 'E') :
    expCapture (pre ++ suf) = expCapture suf := by
  induction pre with
  | nil => simp
  | cons c pre' ih =>
    rw [List.cons_append,
      expCapture_skip c (pre' ++ suf) (by simp; omega) (h c (by simp))]
    exact ih (fun x hx => h x (by simp [hx]))

theorem expCapture_found (mk sg d : Char) (r : List Char)
    (hmk : mk = 'e' ∨ mk = 'E') (hsg : sg = '+' ∨ sg = '-')
    (hd : isDigitC d = true) :
    expCapture (mk :: sg :: d :: r) = some (d :: r.takeWhile isDigitC) := by
  rw [expCapture, if_pos ⟨hmk, hsg, hd⟩]

theorem getOperands_ok_ce {s : String} {op : Operands} (h : getOperands s = .ok op) :
    op.c = getExponent s ∧ op.e = getExponent s := by
  unfold getOperands at h
  split at h
  · cases h; exact ⟨rfl, rfl⟩
  · cases h
  · cases h

/-- C5, counterexample: for the input `"1e6"` the text writes the decimal
exponent `6`, but the derived operands have `c = e = 0`: the source's
`ExponentPattern` requires an explicit sign after `e`/`E`, so an unsigned
exponent is not captured. -/
theorem exponent_unsigned_not_captured :
    (match getOperands "1e6" with
      | .ok op => (op.c, op.e)
      | .error _ => (99, 99)) = (0, 0) ∧
    specWrittenExponent "1e6" = 6 ∧ (0 : ℤ) ≠ 6 := by
  refine ⟨by with_unfolding_all decide, by decide, by decide⟩

/-- C5, amended: `c` and `e` are always equal; they are `0` whenever the
retained text contains no `e`/`E` at all (in particular when there is no
exponent part, and for `c`-marked exponents), and when the text writes the
exponent as `e`/`E` followed by an explicit `+` or `-` sign and digits they
equal the unsigned digit value (the sign is dropped). -/
theorem exponent_operands_characterization :
    (∀ (s : String) (op : Operands), getOperands s = .ok op → op.c = op.e) ∧
    (∀ (s : String) (op : Operands), getOperands s = .ok op →
      (∀ chr ∈ s.data, chr ≠ 'e' ∧ chr ≠ 'E') → op.c = 0) ∧
    (∀ (pre ds post : List Char) (mk sg : Char) (op : Operands),
      (∀ chr ∈ pre, chr ≠ 'e' ∧ chr ≠ 'E') →
      (mk = 'e' ∨ mk = 'E') → (sg = '+' ∨ sg = '-') →
      ds ≠ [] → (∀ chr ∈ ds, isDigitC chr = true) →
      (match post with | [] => True | p :: _ => isDigitC p = false) →
      getOperands (String.mk (pre ++ mk :: sg :: (ds ++ post))) = .ok op →
      op.c = natOfDigits ds) := by
  refine ⟨?_, ?_, ?_⟩
  · intro s op h
    have hce := getOperands_ok_ce h
    rw [hce.1, hce.2]
  · intro s op h hne
    rw [(getOperands_ok_ce h).1, getExponent, expCapture_no_marker s.data hne]
  · intro pre ds post mk sg op hpre hmk hsg hds hdig hpost h
    rw [(getOperands_ok_ce h).1, getExponent]
    rw [show (String.mk (pre ++ mk :: sg :: (ds ++ post))).data =
      pre ++ mk :: sg :: (ds ++ post) from rfl]
    obtain ⟨d, ds', rfl⟩ : ∃ d ds', ds = d :: ds' := by
      cases ds with
      | nil => exact absurd rfl hds
      | cons d ds' => exact ⟨d, ds', rfl⟩
    rw [expCapture_front pre _ (by simp) hpre]
    rw [show (d :: ds') ++ post = d :: (ds' ++ post) from rfl]
    rw [expCapture_found mk sg d _ hmk hsg (hdig d (by simp))]
    rw [takeWhile_append_eq (fun x hx => hdig x (by simp [hx])) hpost]

/-- C5 witness: for `"0e+7"` — an exponent written with an explicit sign —
`c = e = 7`, matching the written digits. -/
theorem exponent_operands_characterization_witness :
    (⟨0, 0, 0, 0, 0, 0, 7, 7⟩ : Operands).c = (⟨0, 0, 0, 0, 0, 0, 7, 7⟩ : Operands).e ∧
    (⟨0, 0, 0, 0, 0, 0, 7, 7⟩ : Operands).c = natOfDigits ['7'] :=
  ⟨(exponent_operands_characterization.1 "0e+7" ⟨0, 0, 0, 0, 0, 0, 7, 7⟩
      (by with_unfolding_all decide)),
   (exponent_operands_characterization.2.2 ['0'] ['7'] [] 'e' '+'
      ⟨0, 0, 0, 0, 0, 0, 7, 7⟩ (by decide) (Or.inl rfl) (Or.inl rfl)
      (by decide) (by decide) trivial (by with_unfolding_all decide))⟩

theorem charLe_toNat {a b : Char} : (a ≤ b) ↔ a.toNat ≤ b.toNat := Iff.rfl

theorem isDigitC_toNat {d : Char} (hd : isDigitC d = true) :
    48 ≤ d.toNat ∧ d.toNat ≤ 57 := by
  simp only [isDigitC, Bool.and_eq_true, decide_eq_true_eq] at hd
  exact ⟨charLe_toNat.1 hd.1, charLe_toNat.1 hd.2⟩

theorem digit_ne_of_not_digit {d : Char} (hd : isDigitC d = true) :
    ∀ (c : Char), isDigitC c = false → d ≠ c := by
  intro c hc h
  subst h
  rw [hd] at hc
  cases hc

theorem digit_head_facts {d : Char} (hd : isDigitC d = true) :
    jsWhitespace d = false ∧ isLowerAZ d = false ∧ d ≠ '@' ∧ d ≠ '!' ∧ d ≠ '.' := by
  have hn := isDigitC_toNat hd
  have hne := digit_ne_of_not_digit hd
  refine ⟨?_, ?_, hne '@' (by decide), hne '!' (by decide), hne '.' (by decide)⟩
  · have h11 : d.toNat ≠ 11 := by omega
    have h12 : d.toNat ≠ 12 := by omega
    have h160 : d.toNat ≠ 160 := by omega
    have hbom : d.toNat ≠ 65279 := by omega
    simp [jsWhitespace, hne ' ' (by decide), hne '\t' (by decide),
      hne '\n' (by decide), hne '\r' (by decide), h11, h12, h160, hbom]
  · have hlow : ¬('a' ≤ d) := fun hle => by
      have := charLe_toNat.1 hle
      have ha : ('a').toNat = 97 := by decide
      omega
    simp [isLowerAZ, hlow]

theorem tokensF_digit_step (fuel : Nat) (d : Char) (rest : List Char)
    (hd : isDigitC d = true) :
    tokensF (fuel + 1) (d :: rest) =
      (tokensF fuel (lexNumber d rest).2).map ((lexNumber d rest).1 :: ·) := by
  have hfacts := digit_head_facts hd
  rw [tokensF]
  rw [if_neg (by simp [hfacts.1]), if_neg (by simp [hfacts.2.1]),
    if_neg hfacts.2.2.1, if_pos (by simp [hd])]

theorem dropWhile_append_eq {p : Char → Bool} {l₁ l₂ : List Char}
    (h1 : ∀ x ∈ l₁, p x = true)
    (h2 : match l₂ with | [] => True | x :: _ => p x = false) :
    (l₁ ++ l₂).dropWhile p = l₂ := by
  rw [List.dropWhile_append_of_pos h1]
  cases l₂ with
  | nil => rfl
  | cons x xs =>
    simp only at h2
    rw [List.dropWhile_cons_of_neg (by simp [h2])]

theorem takeWhile_all {p : Char → Bool} {l : List Char}
    (h : ∀ x ∈ l, p x = true) : l.takeWhile p = l := by
  induction l with
  | nil => rfl
  | cons x xs ih =>
    rw [List.takeWhile_cons_of_pos (h x (by simp)),
      ih (fun y hy => h y (by simp [hy]))]

theorem dropWhile_all {p : Char → Bool} {l : List Char}
    (h : ∀ x ∈ l, p x = true) : l.dropWhile p = [] :=
  List.dropWhile_eq_nil_iff.2 h

theorem lexFrac_no_dot (c : Char) (l : List Char) (hc : c ≠ '.') :
    lexFrac (c :: l) = ([], c :: l) := by
  unfold lexFrac
  split
  next d r heq =>
    injection heq with h1 h2
    exact absurd h1 hc
  next => rfl

theorem lexFrac_dot (f1 : Char) (fs E : List Char)
    (hf1 : isDigitC f1 = true) (hfs : ∀ x ∈ fs, isDigitC x = true)
    (hE : match E with | [] => True | x :: _ => isDigitC x = false) :
    lexFrac ('.' :: f1 :: (fs ++ E)) = ('.' :: f1 :: fs, E) := by
  show (if isDigitC f1
      then ('.' :: f1 :: (fs ++ E).takeWhile isDigitC,
        (fs ++ E).dropWhile isDigitC)
      else ([], '.' :: f1 :: (fs ++ E))) = _
  rw [if_pos hf1, takeWhile_append_eq hfs hE, dropWhile_append_eq hfs hE]

theorem lexExp_marker (m e1 : Char) (es : List Char)
    (hm : m = 'c' ∨ m = 'e') (he1 : isDigitC e1 = true) (h0 : e1 ≠ '0')
    (hes : ∀ x ∈ es, isDigitC x = true) :
    lexExp (m :: e1 :: es) = (m :: e1 :: es, []) := by
  show (if (m = 'c' || m = 'e') && (isDigitC e1 && e1 ≠ '0')
      then (m :: e1 :: es.takeWhile isDigitC, es.dropWhile isDigitC)
      else ([], m :: e1 :: es)) = _
  rw [takeWhile_all hes, dropWhile_all hes]
  rcases hm with rfl | rfl <;> simp [he1, h0]

theorem lexNumber_split (d : Char) (ds F E : List Char)
    (hds : ∀ x ∈ ds, isDigitC x = true)
    (hhead : match F ++ E with | [] => True | x :: _ => isDigitC x = false)
    (hF : lexFrac (F ++ E) = (F, E))
    (hE : lexExp E = (E, [])) :
    lexNumber d (ds ++ (F ++ E)) =
      (.value (String.mk ((d :: ds) ++ F ++ E)) (F ++ E).isEmpty, []) := by
  show (Token.value (String.mk ((d :: (ds ++ (F ++ E)).takeWhile isDigitC) ++
        (lexFrac ((ds ++ (F ++ E)).dropWhile isDigitC)).1 ++
        (lexExp (lexFrac ((ds ++ (F ++ E)).dropWhile isDigitC)).2).1))
      ((lexFrac ((ds ++ (F ++ E)).dropWhile isDigitC)).1 ++
        (lexExp (lexFrac ((ds ++ (F ++ E)).dropWhile isDigitC)).2).1).isEmpty,
      (lexExp (lexFrac ((ds ++ (F ++ E)).dropWhile isDigitC)).2).2) = _
  rw [takeWhile_append_eq hds hhead, dropWhile_append_eq hds hhead, hF]
  simp only [hE]

/-- C6, counterexample: the claim (and the spec) allow an uppercase `E` as
the exponent marker of a numeric literal, but the lexer regex group
`(\d+((?:\.\d+)?(?:[ce][1-9]\d*)?))` only matches lowercase `e` or `c`; on
the source `1E3` the lexer takes `1` as a complete integer token and then
fails on the `E` with `Invalid character: E` — it does not produce the
single numeric token `1E3`. -/
theorem uppercase_E_is_lexical_error :
    lexAll "1E3" = .error ("Invalid character: E") ∧
      lexAll "1E3" ≠ .ok [Token.value "1E3" false] := by
  refine ⟨by decide, by decide⟩

/-- C6, amended: a numeric literal is an integer run of digits, optionally
followed by a fractional part `.digits` and/or an exponent marker spelled
lowercase `e` or `c` (uppercase `E` is not accepted) with a digit sequence
not starting with zero; the lexer turns exactly such a literal into one
numeric-value token carrying the literal text, whose `isInt` flag is true
exactly when neither a fractional nor an exponent part is present. -/
theorem numeric_token_classification
    (d : Char) (ds : List Char) (fracOpt : Option (List Char))
    (expOpt : Option (Char × List Char))
    (hd : isDigitC d = true)
    (hds : ∀ x ∈ ds, isDigitC x = true)
    (hfrac : match fracOpt with
      | none => True
      | some fds => fds ≠ [] ∧ ∀ x ∈ fds, isDigitC x = true)
    (hexp : match expOpt with
      | none => True
      | some (m, eds) => (m = 'c' ∨ m = 'e') ∧ eds ≠ [] ∧
          (∀ x ∈ eds, isDigitC x = true) ∧ eds.headD ' ' ≠ '0') :
    tokens (d :: ds ++
        (match fracOpt with | none => [] | some fds => '.' :: fds) ++
        (match expOpt with | none => [] | some me => me.1 :: me.2)) =
      .ok [Token.value
        (String.mk (d :: ds ++
            (match fracOpt with | none => [] | some fds => '.' :: fds) ++
            (match expOpt with | none => [] | some me => me.1 :: me.2)))
        (fracOpt.isNone && expOpt.isNone)] := by
  cases fracOpt with
  | none =>
    cases expOpt with
    | none =>
      have key := lexNumber_split d ds [] [] hds trivial rfl rfl
      simp only [tokens, List.cons_append, List.nil_append, List.append_nil,
        List.append_assoc, List.length_cons] at key ⊢
      rw [tokensF_digit_step _ d _ hd]
      simp only [key]
      rw [tokensF_nil _ (Nat.succ_pos _)]
      rfl
    | some me =>
      obtain ⟨m, eds⟩ := me
      obtain ⟨hm, hne, hed, h0⟩ := hexp
      cases eds with
      | nil => exact absurd rfl hne
      | cons e1 es =>
        have he1 : isDigitC e1 = true := hed e1 (by simp)
        have hes : ∀ x ∈ es, isDigitC x = true :=
          fun x hx => hed x (by simp [hx])
        have h0e : e1 ≠ '0' := by simpa using h0
        have hmd : isDigitC m = false := by
          rcases hm with rfl | rfl <;> decide
        have hmdot : m ≠ '.' := by
          rcases hm with rfl | rfl <;> decide
        have key := lexNumber_split d ds [] (m :: e1 :: es) hds
          (by simpa using hmd)
          (by simpa using lexFrac_no_dot m (e1 :: es) hmdot)
          (lexExp_marker m e1 es hm he1 h0e hes)
        simp only [tokens, List.cons_append, List.nil_append,
          List.append_nil, List.append_assoc, List.length_cons] at key ⊢
        rw [tokensF_digit_step _ d _ hd]
        simp only [key]
        rw [tokensF_nil _ (Nat.succ_pos _)]
        rfl
  | some fds =>
    obtain ⟨hne, hfd⟩ := hfrac
    cases fds with
    | nil => exact absurd rfl hne
    | cons f1 fs =>
      have hf1 : isDigitC f1 = true := hfd f1 (by simp)
      have hfs : ∀ x ∈ fs, isDigitC x = true :=
        fun x hx => hfd x (by simp [hx])
      cases expOpt with
      | none =>
        have key := lexNumber_split d ds ('.' :: f1 :: fs) [] hds
          (by exact rfl)
          (by simpa using lexFrac_dot f1 fs [] hf1 hfs trivial)
          rfl
        simp only [tokens, List.cons_append, List.nil_append,
          List.append_nil, List.append_assoc, List.length_cons] at key ⊢
        rw [tokensF_digit_step _ d _ hd]
        simp only [key]
        rw [tokensF_nil _ (Nat.succ_pos _)]
        rfl
      | some me =>
        obtain ⟨m, eds⟩ := me
        obtain ⟨hm, hene, hed, h0⟩ := hexp
        cases eds with
        | nil => exact absurd rfl hene
        | cons e1 es =>
          have he1 : isDigitC e1 = true := hed e1 (by simp)
          have hes : ∀ x ∈ es, isDigitC x = true :=
            fun x hx => hed x (by simp [hx])
          have h0e : e1 ≠ '0' := by simpa using h0
          have hmd : isDigitC m = false := by
            rcases hm with rfl | rfl <;> decide
          have key := lexNumber_split d ds ('.' :: f1 :: fs)
            (m :: e1 :: es) hds
            (by exact rfl)
            (lexFrac_dot f1 fs (m :: e1 :: es) hf1 hfs (by simpa using hmd))
            (lexExp_marker m e1 es hm he1 h0e hes)
          simp only [tokens, List.cons_append, List.nil_append,
            List.append_nil, List.append_assoc, List.length_cons] at key ⊢
          rw [tokensF_digit_step _ d _ hd]
          simp only [key]
          rw [tokensF_nil _ (Nat.succ_pos _)]
          rfl

/-- C6 witness: the literal `12.5e3` — integer digits `12`, fraction `5`,
exponent `e3` — lexes to the single numeric token `12.5e3` with
`isInt = false`; the hypotheses hold at these concrete parts. -/
theorem numeric_token_classification_witness :
    lexAll "12.5e3" = .ok [Token.value "12.5e3" false] :=
  numeric_token_classification '1' ['2'] (some ['5']) (some ('e', ['3']))
    (by decide) (by decide) (by decide) (by decide)


end PluralRules
